import Mathlib

set_option autoImplicit false

/-!
Verification of the IdSiberCoder agent-loop core against its specification.

The definitions below are a shallow embedding of the TypeScript sources:
`src/context/ContextManager.ts` (context compaction), the
`ConversationHandler` (transcript state), the `processOutcome` dispatcher
loop of `src/extension.ts`, and the failure paths of the DeepSeek and
OpenAI provider adapters.  JavaScript strings are modelled as Lean
`String`s operated on through their character lists (all inputs of
interest are in the basic plane, where `charCodeAt` agrees with the code
point), JavaScript numbers holding token counts, thresholds and indices
as `Nat`, and the 32-bit signed integer arithmetic of the summary hash
as `Int` with explicit wrapping.
-/

/-! ## Data model (`ContextManager.ts` interfaces) -/

/-- `type Role = 'system' | 'user' | 'assistant' | 'tool'`. -/
inductive Role where
  | system
  | user
  | assistant
  | tool
deriving DecidableEq, Repr

/-- `interface MessageUsage` — all three fields optional. -/
structure MessageUsage where
  promptTokens : Option Nat := none
  completionTokens : Option Nat := none
  totalTokens : Option Nat := none
deriving DecidableEq, Repr

/-- The `function` payload of a `ToolFunctionCall`: `{name, arguments}`.
`arguments` is typed `string` in the source but read through optional
chaining (`entryTool.function?.arguments`), so it is carried here as it
is in the interface and the option lives on the `function` field. -/
structure ToolFunctionBody where
  name : String
  arguments : String
deriving DecidableEq, Repr

/-- `interface ToolFunctionCall { id?; type?; function? }`. -/
structure ToolFunctionCall where
  id : Option String := none
  type : Option String := none
  function : Option ToolFunctionBody := none
deriving DecidableEq, Repr

/-- `interface ConversationMessage`. -/
structure ConversationMessage where
  role : Role
  content : String
  name : Option String := none
  toolCallId : Option String := none
  usage : Option MessageUsage := none
  toolCalls : Option (List ToolFunctionCall) := none
deriving DecidableEq, Repr

/-- Out-of-range array reads in the model fall back to this message; every
use is guarded so the fallback is never observable. -/
def dummyMessage : ConversationMessage := { role := Role.system, content := "" }

instance : Inhabited ConversationMessage := ⟨dummyMessage⟩

/-! ## Character-list string helpers

JavaScript string primitives (`trim`, `split`, `startsWith`, `slice`,
`includes`, `replace(/\s+/g, ' ')`) are modelled by structurally
recursive functions over `List Char` so that concrete runs reduce inside
the kernel. -/

/-- `\w` of the dedup regular expression: `[A-Za-z0-9_]`. -/
def isWordChar (c : Char) : Bool :=
  ('a' ≤ c && c ≤ 'z') || ('A' ≤ c && c ≤ 'Z') || ('0' ≤ c && c ≤ '9') || c = '_'

/-- One step of `String.prototype.trim`: drop leading whitespace. -/
def trimChars (l : List Char) : List Char :=
  ((l.dropWhile Char.isWhitespace).reverse.dropWhile Char.isWhitespace).reverse

/-- JavaScript `s.trim()`. -/
def trimStr (s : String) : String := String.mk (trimChars s.data)

/-- `p` occurs as a prefix of `s` (JavaScript `s.startsWith(p)`). -/
def startsWithStr (s p : String) : Bool := p.data.isPrefixOf s.data

/-- JavaScript `s.slice(n)` for a non-negative character index. -/
def dropStr (s : String) (n : Nat) : String := String.mk (s.data.drop n)

/-- Collapse every whitespace run to a single space
(`content.replace(/\s+/g, ' ')`); the flag `prevWs` records whether the
previous character was part of a run already replaced. -/
def collapseWsAux : Bool → List Char → List Char
  | _, [] => []
  | prevWs, c :: rest =>
    if c.isWhitespace then
      if prevWs then collapseWsAux true rest else ' ' :: collapseWsAux true rest
    else c :: collapseWsAux false rest

/-- `content.replace(/\s+/g, ' ').trim()`. -/
def flattenContent (s : String) : String :=
  trimStr (String.mk (collapseWsAux false s.data))

/-- Split on a separator character, JavaScript `s.split(sep)` (an empty
string yields one empty field, as in JavaScript). -/
def splitCharsOn (sep : Char) : List Char → List (List Char)
  | [] => [[]]
  | c :: rest =>
    let r := splitCharsOn sep rest
    if c = sep then [] :: r
    else
      match r with
      | [] => [[c]]
      | h :: t => (c :: h) :: t

/-- JavaScript `raw.split('\n')`. -/
def splitNl (s : String) : List String := (splitCharsOn '\n' s.data).map String.mk

/-- `pat` occurs somewhere in `l` (JavaScript `includes`). -/
def containsSubChars (pat : List Char) : List Char → Bool
  | [] => pat.isPrefixOf ([] : List Char)
  | c :: rest => pat.isPrefixOf (c :: rest) || containsSubChars pat rest

/-- The characters of `l` strictly before the first occurrence of `pat`. -/
def takeUntilSub (pat : List Char) : List Char → List Char
  | [] => []
  | c :: rest => if pat.isPrefixOf (c :: rest) then [] else c :: takeUntilSub pat rest

/-- `lines.join('\n')`. -/
def joinNl : List String → String
  | [] => ""
  | [s] => s
  | s :: rest => s ++ "\n" ++ joinNl rest

/-! ## The summary hash (`hashSummary`)

`hash = (hash << 5) - hash + value.charCodeAt(i); hash |= 0;` over a
32-bit signed accumulator, rendered with `toString(16)` (which prints a
minus sign followed by the hexadecimal magnitude for negatives). -/

/-- Wrap an integer into the signed 32-bit range (JavaScript `| 0`). -/
def toInt32 (n : Int) : Int := (n + 2 ^ 31) % 2 ^ 32 - 2 ^ 31

/-- One step of the polynomial hash: the shift result is itself a 32-bit
value before the subtraction and addition, and the sum is truncated. -/
def hashStepJS (h : Int) (c : Nat) : Int := toInt32 (toInt32 (h * 2 ^ 5) - h + c)

/-- Accumulated hash over the characters. -/
def hashInt (s : String) : Int := s.data.foldl (fun h c => hashStepJS h c.toNat) 0

/-- `Nat` in lowercase hexadecimal, as `Number.prototype.toString(16)`. -/
def natToHexStr (n : Nat) : String := String.mk (Nat.toDigits 16 n)

/-- `Number.prototype.toString(16)` on a possibly negative integer. -/
def jsHexString (i : Int) : String :=
  if i < 0 then "-" ++ natToHexStr i.natAbs else natToHexStr i.toNat

/-- `ContextManager.hashSummary`. -/
def hashSummary (s : String) : String := jsHexString (hashInt s)

/-! ## The dedup regular expression `/Tool:\\s*(\w+)/i`

In a TypeScript regex literal `\\` matches one literal backslash and
`s*` then matches a run of the letter `s` (case-insensitively, because
of the `/i` flag); `(\w+)` captures a greedy run of word characters,
backtracking into the `s` run when no word character follows it. -/

/-- Match `s*(\w+)` at the head of `l` and return the capture. -/
def matchAfterBackslash (l : List Char) : Option String :=
  let k := (l.takeWhile (fun c => c.toLower = 's')).length
  let restW := (l.drop k).takeWhile isWordChar
  if restW.length > 0 then some (String.mk restW)
  else if k > 0 then
    match l.drop (k - 1) with
    | c :: _ => some (String.mk [c])
    | [] => none
  else none

/-- Match the whole pattern anchored at the head of the list. -/
def matchToolAt : List Char → Option String
  | t :: o1 :: o2 :: l :: c :: b :: rest =>
    if t.toLower = 't' && o1.toLower = 'o' && o2.toLower = 'o' && l.toLower = 'l'
        && c = ':' && b = '\\' then
      matchAfterBackslash rest
    else none
  | _ => none

/-- Leftmost-match search, as `String.prototype.match`. -/
def findToolActionAux : List Char → Option String
  | [] => none
  | c :: rest =>
    match matchToolAt (c :: rest) with
    | some a => some a
    | none => findToolActionAux rest

/-- The capture group of `content.match(/Tool:\\s*(\w+)/i)`. -/
def findToolAction (s : String) : Option String := findToolActionAux s.data

/-! ## ContextManager state and results -/

/-- The private fields of `ContextManager`, options already resolved
(the constructor defaults are `optimizedActions = {read_file}`,
`maxInstances = 1`, `summaryThreshold = 40`, `summaryRetention = 35`,
`summaryMaxLineLength = 300`, `summaryTokenThreshold = undefined`).
`summaryHashes` is the `Set<string>` of seen fingerprints, carried as a
list whose membership is the set membership. -/
structure CMState where
  enabled : Bool
  optimizedActions : List String
  maxInstances : Nat
  summaryEnabled : Bool
  summaryThreshold : Nat
  summaryRetention : Nat
  summaryPrefix : String
  summaryMaxLineLength : Nat
  summaryTokenThreshold : Option Nat
  summaryLines : List String
  summaryHashes : List String
deriving DecidableEq, Repr

/-- `interface OptimizationResult`. -/
structure OptimizationResult where
  optimized : Bool
  messages : List ConversationMessage
  removed : Nat
  summaryUpdated : Bool
  summaryLines : Nat
deriving DecidableEq, Repr

/-! ## Mechanism (a): redundant tool-call collapsing (`optimize`) -/

/-- The dedup key of one message: assistant turns whose content matches
the regex with an optimizable capture get `` `${action}|${content}` ``,
every other turn gets none. -/
def messageKey (actions : List String) (m : ConversationMessage) : Option String :=
  if m.role = Role.assistant then
    match findToolAction m.content with
    | some action =>
      if actions.contains action then some (action ++ "|" ++ m.content) else none
    | none => none
  else none

/-- Indices (ascending, starting at `n`) of the messages generating key
`k`: the `toolOccurrences` bucket of `k`, which `forEach` fills in
traversal order, making the `indices.sort((a, b) => a - b)` in the
source the identity. -/
def keyIndicesAux (actions : List String) (k : String) :
    List ConversationMessage → Nat → List Nat
  | [], _ => []
  | m :: ms, n =>
    if messageKey actions m = some k then n :: keyIndicesAux actions k ms (n + 1)
    else keyIndicesAux actions k ms (n + 1)

/-- The bucket of key `k` over the whole working list. -/
def keyIndices (actions : List String) (msgs : List ConversationMessage) (k : String) :
    List Nat :=
  keyIndicesAux actions k msgs 0

/-- `indices.slice(0, indices.length - maxInstances)` for a bucket whose
size exceeds `maxInstances`, else nothing (the `continue`).  The two
manager fields the collapsing stage reads (`optimizedActions`,
`maxInstances`) are passed explicitly. -/
def staleIndices (actions : List String) (maxInstances : Nat)
    (msgs : List ConversationMessage) (k : String) : List Nat :=
  let idxs := keyIndices actions msgs k
  if idxs.length ≤ maxInstances then []
  else idxs.take (idxs.length - maxInstances)

/-- Membership of `i` in the stale bucket of its own message's key. -/
def staleAt (actions : List String) (maxInstances : Nat)
    (msgs : List ConversationMessage) (i : Nat) : Bool :=
  match messageKey actions (msgs.getD i dummyMessage) with
  | some k => (staleIndices actions maxInstances msgs k).contains i
  | none => false

/-- Membership in the `indicesToRemove` set: a stale assistant index, or
the index right after one when it holds a `tool` turn (`next <
working.length && working[next].role === 'tool'`). -/
def removedIndex (actions : List String) (maxInstances : Nat)
    (msgs : List ConversationMessage) (i : Nat) : Bool :=
  (decide (i < msgs.length) && staleAt actions maxInstances msgs i)
    || (decide (0 < i) && decide (i < msgs.length)
        && decide ((msgs.getD i dummyMessage).role = Role.tool)
        && staleAt actions maxInstances msgs (i - 1))

/-- `Array.prototype.filter` with the element index (`(_, idx) => ...`),
the index counter starting at `n`. -/
def filterIdx {α : Type} (p : Nat → Bool) : List α → Nat → List α
  | [], _ => []
  | x :: xs, n => if p n then x :: filterIdx p xs (n + 1) else filterIdx p xs (n + 1)

/-- The `filtered` list of `optimize`: drop every index in
`indicesToRemove`. -/
def dedupMessages (actions : List String) (maxInstances : Nat)
    (msgs : List ConversationMessage) : List ConversationMessage :=
  filterIdx (fun i => !removedIndex actions maxInstances msgs i) msgs 0

/-- The "otherwise-unique turns" side condition of the dedup-correctness
property, as a decidable check: every turn producing a dedup key other
than `K` sits in a bucket within the `maxInstances` limit (so the
collapsing pass touches only the `K` bucket). -/
def othersWithinLimit (actions : List String) (maxInstances : Nat)
    (msgs : List ConversationMessage) (K : String) : Bool :=
  (List.range msgs.length).all (fun j =>
    match messageKey actions (msgs.getD j dummyMessage) with
    | some k => k = K || decide ((keyIndices actions msgs k).length ≤ maxInstances)
    | none => true)

/-! ## Token-usage force trigger -/

/-- The backwards scan of `getLastUsageTokens`, written over the
reversed list: the first message (from the end) carrying a usable usage
figure wins; a present `totalTokens` wins even when it is `0`, otherwise
`promptTokens + completionTokens` counts only when positive. -/
def lastUsageTokensRev : List ConversationMessage → Nat
  | [] => 0
  | m :: rest =>
    match m.usage with
    | none => lastUsageTokensRev rest
    | some u =>
      match u.totalTokens with
      | some t => t
      | none =>
        let p := u.promptTokens.getD 0
        let c := u.completionTokens.getD 0
        if p + c > 0 then p + c else lastUsageTokensRev rest

/-- `ContextManager.getLastUsageTokens`. -/
def getLastUsageTokens (msgs : List ConversationMessage) : Nat :=
  lastUsageTokensRev msgs.reverse

/-- `ContextManager.shouldForceSummaryByTokens`: false when the
threshold is absent or not positive (`!this.summaryTokenThreshold ||
this.summaryTokenThreshold <= 0`). -/
def shouldForceSummaryByTokens (st : CMState) (msgs : List ConversationMessage) : Bool :=
  match st.summaryTokenThreshold with
  | none => false
  | some t => if t = 0 then false else decide (t ≤ getLastUsageTokens msgs)

/-! ## Mechanism (b): rolling summarization (`applySummaries`) -/

/-- The guard of `applySummaries`: the pass proceeds unless
`!force && messages.length <= summaryThreshold`. -/
def summaryTriggered (st : CMState) (msgs : List ConversationMessage) (force : Bool) : Bool :=
  force || decide (msgs.length > st.summaryThreshold)

/-- The `while (startIndex > 0 && startIndex < messages.length &&
messages[startIndex].role === 'tool') startIndex -= 1;` loop. -/
def walkBackTool (msgs : List ConversationMessage) : Nat → Nat
  | 0 => 0
  | s + 1 =>
    if s + 1 < msgs.length && (msgs.getD (s + 1) dummyMessage).role = Role.tool then
      walkBackTool msgs s
    else s + 1

/-- `true` when the message is an assistant turn with a present,
non-empty `toolCalls` array. -/
def hasPendingToolCalls (m : ConversationMessage) : Bool :=
  m.role = Role.assistant
    && (match m.toolCalls with
        | some calls => !calls.isEmpty
        | none => false)

/-- The one extra step past an assistant turn carrying pending tool
calls (`startIndex > 0 && startIndex <= messages.length && ...`). -/
def adjustAssistant (msgs : List ConversationMessage) (s : Nat) : Nat :=
  if 0 < s && s ≤ msgs.length && hasPendingToolCalls (msgs.getD (s - 1) dummyMessage) then
    s - 1
  else s

/-- Whether the force fallback repositioning applies to the walked-back
boundary: `force && startIndex <= 1 && messages.length > 2`. -/
def forceBumpApplies (msgs : List ConversationMessage) (force : Bool) (s : Nat) : Bool :=
  force && s ≤ 1 && decide (msgs.length > 2)

/-- The fallback boundary
`Math.min(Math.max(2, Math.floor(len / 2)), Math.max(1, len - 1))`. -/
def forceBumpIndex (msgs : List ConversationMessage) : Nat :=
  min (max 2 (msgs.length / 2)) (max 1 (msgs.length - 1))

/-- The walked-back boundary before the force fallback: the naive
`Math.max(0, len - Math.max(0, summaryRetention))` start (truncated
subtraction on `Nat` renders both `Math.max(0, ...)`), adjusted by the
tool-role walk and the assistant step only when it is positive. -/
def walkedStart (st : CMState) (msgs : List ConversationMessage) : Nat :=
  let s0 := msgs.length - st.summaryRetention
  if 0 < s0 then adjustAssistant msgs (walkBackTool msgs s0) else s0

/-- The final cut index of `applySummaries`. -/
def cutIndex (st : CMState) (msgs : List ConversationMessage) (force : Bool) : Nat :=
  let s1 := walkedStart st msgs
  if forceBumpApplies msgs force s1 then forceBumpIndex msgs else s1

/-! ### Rendering one head entry to a bullet line -/

/-- `JSON.stringify` of a string value (quote and escape). -/
def jsonEscapeChar (c : Char) : List Char :=
  if c = '"' then ['\\', '"']
  else if c = '\\' then ['\\', '\\']
  else if c = '\n' then ['\\', 'n']
  else if c = '\t' then ['\\', 't']
  else if c = '\r' then ['\\', 'r']
  else [c]

/-- `JSON.stringify` applied to a JavaScript string. -/
def jsStringifyString (s : String) : String :=
  String.mk ('"' :: (s.data.map jsonEscapeChar).flatten ++ ['"'])

/-- `JSON.stringify(entryTool.function?.arguments)` interpolated into a
template literal: an absent value prints as `undefined`. -/
def jsStringifyOptString : Option String → String
  | some s => jsStringifyString s
  | none => "undefined"

/-- `ContextManager.limitJsonString(jsonObj, maxLength)`: `jsonObj || {}`
replaces an absent or empty (falsy) argument string by the empty object
before stringifying, and the result is truncated with an ellipsis. -/
def limitJsonString (o : Option String) (maxLength : Nat) : String :=
  let str :=
    match o with
    | some s => if s = "" then "{}" else jsStringifyString s
    | none => "{}"
  if str.length ≤ maxLength then str
  else String.mk (str.data.take (maxLength - 3)) ++ "..."

/-- `${tcName}` for the optionally chained `entryTool.function?.name`. -/
def optNameText : Option String → String
  | some s => s
  | none => "undefined"

/-- One `\nCall Tool <name> : <content>` fragment; `edit_file` and
`write_file` arguments go through `limitJsonString(..., 200)`. -/
def concatToolFragment (tc : ToolFunctionCall) : String :=
  let tcName := tc.function.map ToolFunctionBody.name
  let tcArgs := tc.function.map ToolFunctionBody.arguments
  let tcContent :=
    if tcName ≠ some "edit_file" && tcName ≠ some "write_file" then
      jsStringifyOptString tcArgs
    else limitJsonString tcArgs 200
  "\nCall Tool " ++ optNameText tcName ++ " : " ++ tcContent

/-- The concatenated tool fragments of an assistant entry. -/
def concatTool (m : ConversationMessage) : String :=
  match m.toolCalls with
  | some calls => (calls.map concatToolFragment).foldl (fun a b => a ++ b) ""
  | none => ""

/-- The role label, with `` `tool (${name})` `` only when the tool name
is present and truthy (a present empty string adds nothing). -/
def bulletLabel (m : ConversationMessage) : String :=
  match m.role with
  | Role.system => "system"
  | Role.user => "user"
  | Role.assistant => "assistant"
  | Role.tool =>
    match m.name with
    | some n => if n = "" then "tool" else "tool (" ++ n ++ ")"
    | none => "tool"

/-- The marker of a read-file tool result. -/
def readFileMarker : String := "Tool result for read_file:"

/-- `content.replace(/Tool result for read_file:.*​/s, 'Tool result for
read_file: ...')`: everything from the first marker on is replaced. -/
def replaceReadFileResult (content : String) : String :=
  String.mk (takeUntilSub readFileMarker.data content.data) ++ "Tool result for read_file: ..."

/-- `ContextManager.truncate`. -/
def truncateLine (st : CMState) (value : String) : String :=
  if value.length ≤ st.summaryMaxLineLength then value
  else String.mk (value.data.take (st.summaryMaxLineLength - 3)) ++ "..."

/-- Render one head entry to its bullet line, `none` when the loop
`continue`s (system turns, prior summary placeholders, and entries whose
flattened content is empty). -/
def bulletFor (st : CMState) (m : ConversationMessage) : Option String :=
  if m.role = Role.system then none
  else if m.role = Role.assistant && startsWithStr m.content st.summaryPrefix then none
  else
    let content0 := flattenContent m.content
    let content1 :=
      if m.role = Role.assistant then
        if content0 ≠ "" then content0 ++ concatTool m else ""
      else content0
    if content1 = "" then none
    else
      let content2 :=
        if m.role = Role.tool && m.name = some "read_file"
            && containsSubChars readFileMarker.data content1.data then
          replaceReadFileResult content1
        else content1
      some (truncateLine st ("• " ++ bulletLabel m ++ ": " ++ content2))

/-- One iteration of the head loop of `applySummaries`: the accumulator
carries the `newLines` collected so far and the live fingerprint set
(`summaryHashes.add` runs inside the loop, so the set also dedups
within one pass). -/
def collectStep (st : CMState) (acc : List String × List String)
    (m : ConversationMessage) : List String × List String :=
  match bulletFor st m with
  | none => acc
  | some b =>
    let h := hashSummary b
    if acc.2.contains h then acc else (acc.1 ++ [b], acc.2 ++ [h])

/-- The head loop of `applySummaries`: collect the fresh bullet lines,
starting from the manager's current fingerprint set. -/
def collectNewLines (st : CMState) (head : List ConversationMessage) :
    List String × List String :=
  head.foldl (collectStep st) ([], st.summaryHashes)

/-- `ContextManager.mergeWithSummary`. -/
def mergeWithSummary (msgs : List ConversationMessage)
    (summaryMessage : ConversationMessage) (startIndex : Nat)
    (tail : List ConversationMessage) : List ConversationMessage :=
  match msgs with
  | [] => [summaryMessage]
  | systemMessage :: _ =>
    let remaining := if startIndex = 0 then tail.drop 1 else tail
    systemMessage :: summaryMessage :: remaining

/-- `ContextManager.formatSummaryContent`: the header gains a trailing
colon when the prefix lacks one. -/
def formatSummaryContent (st : CMState) : String :=
  let header :=
    if st.summaryPrefix.data.getLast? = some ':' then st.summaryPrefix
    else st.summaryPrefix ++ ":"
  header ++ "\n" ++ joinNl st.summaryLines

/-- The result of `applySummaries` (its messages and flag), paired with
the updated manager state. -/
structure SummariesOut where
  summaryUpdated : Bool
  messages : List ConversationMessage
deriving DecidableEq, Repr

/-- `ContextManager.applySummaries`. -/
def applySummaries (st : CMState) (msgs : List ConversationMessage) (force : Bool) :
    SummariesOut × CMState :=
  if !summaryTriggered st msgs force then (⟨false, msgs⟩, st)
  else
    let s := cutIndex st msgs force
    let tail := msgs.drop s
    let head := msgs.take s
    let collected := collectNewLines st head
    let newLines := collected.1
    if newLines.isEmpty then
      if st.summaryLines.isEmpty then (⟨false, msgs⟩, st)
      else
        let summaryMessage : ConversationMessage :=
          { role := Role.assistant
            content := trimStr (st.summaryPrefix ++ "\n" ++ joinNl st.summaryLines) }
        (⟨false, mergeWithSummary msgs summaryMessage s tail⟩, st)
    else
      let st' := { st with
        summaryLines := st.summaryLines ++ newLines
        summaryHashes := collected.2 }
      let summaryMessage : ConversationMessage :=
        { role := Role.assistant, content := formatSummaryContent st' }
      (⟨true, mergeWithSummary msgs summaryMessage s tail⟩, st')

/-! ## Rehydration and the top-level `optimize` -/

/-- `ContextManager.hydrateSummaryFromMessages`. -/
def hydrateSummaryFromMessages (st : CMState) (msgs : List ConversationMessage) : CMState :=
  if !st.summaryLines.isEmpty then st
  else
    match msgs.find? (fun m =>
        m.role = Role.assistant && startsWithStr m.content st.summaryPrefix) with
    | none => st
    | some candidate =>
      let marker := st.summaryPrefix ++ "\n"
      let raw :=
        if startsWithStr candidate.content marker then
          dropStr candidate.content marker.length
        else candidate.content
      let lines := ((splitNl raw).map trimStr).filter (fun l => l ≠ "")
      if lines.isEmpty then st
      else { st with summaryLines := lines, summaryHashes := lines.map hashSummary }

/-- `ContextManager.optimize`, returning the `OptimizationResult`
together with the mutated manager state. -/
def cmOptimize (st0 : CMState) (messages : List ConversationMessage) :
    OptimizationResult × CMState :=
  let st := hydrateSummaryFromMessages st0 messages
  if !st.enabled || messages.length ≤ 2 then
    ({ optimized := false, messages := messages, removed := 0, summaryUpdated := false
       summaryLines := st.summaryLines.length }, st)
  else
    let filtered := dedupMessages st.optimizedActions st.maxInstances messages
    let removed := messages.length - filtered.length
    let force := if st.summaryEnabled then shouldForceSummaryByTokens st filtered else false
    let stepped :=
      if st.summaryEnabled then applySummaries st filtered force else (⟨false, filtered⟩, st)
    let out := stepped.1
    let st' := stepped.2
    ({ optimized := removed > 0 || out.summaryUpdated, messages := out.messages
       removed := removed, summaryUpdated := out.summaryUpdated
       summaryLines := st'.summaryLines.length }, st')

/-! ## `ConversationHandler` (transcript state) -/

/-- The private `history` of `ConversationHandler`, paired with its
`ContextManager` instance. -/
structure HandlerState where
  history : List ConversationMessage
  cm : CMState
deriving Repr

/-- `ContextManager.reset` (and `dispose`) clear the summary state. -/
def cmReset (st : CMState) : CMState :=
  { st with summaryLines := [], summaryHashes := [] }

/-- `ConversationHandler.initialize`: reset the optimizer, install a
fresh system-only history and run `optimize` on it (the result is
discarded, the optimizer state is kept). -/
def chInit (s : HandlerState) (systemPrompt : String) : HandlerState :=
  let cm0 := cmReset s.cm
  let history : List ConversationMessage := [{ role := Role.system, content := systemPrompt }]
  let stepped := cmOptimize cm0 history
  { history := history, cm := stepped.2 }

/-- `ConversationHandler.addUserMessage`. -/
def chAddUser (s : HandlerState) (content : String) : HandlerState :=
  { s with history := s.history ++ [{ role := Role.user, content := content }] }

/-- `ConversationHandler.addAssistantMessage`. -/
def chAddAssistant (s : HandlerState) (content : String) (usage : Option MessageUsage)
    (toolCalls : Option (List ToolFunctionCall)) : HandlerState :=
  { s with history := s.history ++
      [{ role := Role.assistant, content := content, usage := usage, toolCalls := toolCalls }] }

/-- `ConversationHandler.addToolResult`. -/
def chAddToolResult (s : HandlerState) (content toolName : String)
    (toolCallId : Option String) : HandlerState :=
  { s with history := s.history ++
      [{ role := Role.tool, content := content, name := some toolName
         toolCallId := toolCallId }] }

/-- `ConversationHandler.optimize`: swap in the optimizer's messages
only when it reports a change. -/
def chOptimize (s : HandlerState) : HandlerState :=
  let stepped := cmOptimize s.cm s.history
  if stepped.1.optimized then { history := stepped.1.messages, cm := stepped.2 }
  else { s with cm := stepped.2 }

/-- `ConversationHandler.load`: a malformed transcript (empty or not
system-first) falls back to re-initialization, otherwise the loaded
transcript replaces the history and is optimized in place. -/
def chLoad (s : HandlerState) (history : List ConversationMessage)
    (fallbackSystemPrompt : String) : HandlerState :=
  let s0 : HandlerState := { s with cm := cmReset s.cm }
  match history with
  | [] => chInit { s0 with history := [] } fallbackSystemPrompt
  | first :: _ =>
    if first.role ≠ Role.system then chInit { s0 with history := [] } fallbackSystemPrompt
    else
      let s1 : HandlerState := { s0 with history := history }
      chOptimize s1

/-- One observable mutation of the conversation state. -/
inductive HandlerOp where
  | startConversation (systemPrompt : String)
  | addUser (content : String)
  | addAssistant (content : String) (usage : Option MessageUsage)
      (toolCalls : Option (List ToolFunctionCall))
  | addToolResult (content toolName : String) (toolCallId : Option String)
  | loadHistory (history : List ConversationMessage) (fallbackSystemPrompt : String)
  | runOptimize

/-- Apply one operation (`reset` is `initialize` under another name). -/
def applyOp (s : HandlerState) : HandlerOp → HandlerState
  | HandlerOp.startConversation sys => chInit s sys
  | HandlerOp.addUser c => chAddUser s c
  | HandlerOp.addAssistant c u t => chAddAssistant s c u t
  | HandlerOp.addToolResult c n i => chAddToolResult s c n i
  | HandlerOp.loadHistory h f => chLoad s h f
  | HandlerOp.runOptimize => chOptimize s

/-- The transcript invariant of the spec: non-empty, system-first. -/
def transcriptInv (s : HandlerState) : Prop :=
  s.history ≠ [] ∧ (s.history.headD dummyMessage).role = Role.system

/-! ## The dispatcher loop (`processOutcome` of `extension.ts`) -/

/-- `interface PromptOutcome` (the fields the loop reads). -/
structure PromptOutcome where
  message : ConversationMessage
  toolCalls : Option (List ToolFunctionCall) := none
deriving DecidableEq, Repr

/-- `outcome.toolCalls ?? outcome.message.toolCalls ?? []`. -/
def getToolCalls (o : PromptOutcome) : List ToolFunctionCall :=
  match o.toolCalls with
  | some calls => calls
  | none => o.message.toolCalls.getD []

/-- The `fileToolAlias` table of `extension.ts`. -/
def fileToolAlias : List (String × String) :=
  [("read", "read_file"), ("write", "write_file"), ("append", "append_to_file"),
   ("delete", "delete_file"), ("copy", "copy_file"), ("move", "move_file"),
   ("list", "list_directory"), ("edit", "edit_file")]

/-- `fileToolAlias[requestedName] ?? requestedName` applied to
`call?.function?.name ?? ''`. -/
def normalizedActionOf (call : ToolFunctionCall) : String :=
  let requestedName := (call.function.map ToolFunctionBody.name).getD ""
  (fileToolAlias.lookup requestedName).getD requestedName

/-- The executor invocations of one tool batch, in issue order: every
call whose normalized action is non-empty reaches `executeFileTool`
(the loop carries no cancellation signal, so nothing can interrupt the
batch; a failing executor is caught and encoded into the result, which
does not affect the invocation sequence). -/
def runBatch (calls : List ToolFunctionCall) : List String :=
  calls.filterMap (fun call =>
    let a := normalizedActionOf call
    if a = "" then none else some a)

/-- What one `processOutcome` run did: every executor invocation, the
number of `continueAfterTool` calls issued, whether the `while` loop
exited, and the message held when it stopped. -/
structure DispatchTrace where
  executed : List String
  continuations : Nat
  finished : Bool
  lastMessage : ConversationMessage
deriving DecidableEq, Repr

/-- The `while (currentOutcome)` loop, fuelled: one unit of fuel per
iteration.  `script k` is what the `k`-th `mcp.continueAfterTool()`
call produces — a next outcome, or a thrown error (whose message is
rendered into a synthetic assistant message and ends the loop).  With
`finished = false` the fuel ran out with the loop still going: the real
loop contains no iteration counter, so no configuration can make it
stop on its own. -/
def dispatchGo (script : Nat → Except String PromptOutcome) :
    Nat → PromptOutcome → Nat → List String → DispatchTrace
  | 0, cur, k, ex =>
    { executed := ex, continuations := k, finished := false, lastMessage := cur.message }
  | fuel + 1, cur, k, ex =>
    let calls := getToolCalls cur
    if calls.isEmpty then
      { executed := ex, continuations := k, finished := true, lastMessage := cur.message }
    else
      let ex' := ex ++ runBatch calls
      match script k with
      | Except.ok next => dispatchGo script fuel next (k + 1) ex'
      | Except.error e =>
        { executed := ex', continuations := k + 1, finished := true
          lastMessage := { role := Role.assistant, content := "❌ " ++ e } }

/-- `processOutcome(outcome)` under provider script `script`. -/
def dispatchRun (script : Nat → Except String PromptOutcome) (outcome : PromptOutcome)
    (fuel : Nat) : DispatchTrace :=
  dispatchGo script fuel outcome 0 []

/-- The `maxIterations` setting read by `SettingsManager.getSettings`
(`configuration.get<number>('maxIterations', 12)`); it is surfaced in
the settings UI but never consulted by `processOutcome`. -/
def settingsDefaultMaxIterations : Nat := 12

/-! ## Provider adapter failure paths -/

/-- The relevant projections of a vendor reply (`response.data`):
`choices[0].message.content`, `choices[0].message.tool_calls`, and the
usage block. -/
structure VendorReply where
  content : Option String := none
  toolCalls : Option (List ToolFunctionCall) := none
  promptTokens : Option Nat := none
  completionTokens : Option Nat := none
  totalTokens : Option Nat := none
deriving DecidableEq, Repr

/-- The outcome of the underlying HTTP post: a reply, or a raised error
(network failure, non-2xx response, or an abort after cancellation).
`isAxios` is `axios.isAxiosError`, `apiMessage` is the vendor-reported
`error.response?.data?.error?.message`, `message` the `Error` message,
and `cancelled` is `axios.isCancel`. -/
inductive TransportOutcome where
  | success (reply : VendorReply)
  | failure (cancelled isAxios : Bool) (apiMessage : Option String) (message : String)
deriving DecidableEq, Repr

/-- `interface ProviderResponse` (without the opaque `raw`). -/
structure ProviderResponse where
  message : ConversationMessage
  usage : Option MessageUsage := none
  toolCalls : Option (List ToolFunctionCall) := none
deriving DecidableEq, Repr

/-- The usage normalization shared by the adapters: an absent
`total_tokens` is summed from the present components. -/
def parseUsage (r : VendorReply) : Option MessageUsage :=
  if r.promptTokens = none && r.completionTokens = none && r.totalTokens = none then none
  else some
    { promptTokens := r.promptTokens
      completionTokens := r.completionTokens
      totalTokens :=
        match r.totalTokens with
        | some t => some t
        | none =>
          if r.promptTokens ≠ none || r.completionTokens ≠ none then
            some (r.promptTokens.getD 0 + r.completionTokens.getD 0)
          else none }

/-- The human-readable error text both adapters compute:
`axios.isAxiosError(error) ? error.response?.data?.error?.message ??
error.message : error.message`. -/
def friendlyText (isAxios : Bool) (apiMessage : Option String) (message : String) : String :=
  if isAxios then apiMessage.getD message else message

/-- `DeepSeekProvider.sendChat` from the `try` on: the success path
normalizes the reply; the single `catch` converts *every* raised error —
cancellation included, there is no `isCancel` branch — into a synthetic
assistant message with the `❌ DeepSeek error:` prefix.  The adapter
never rethrows, so the `Except.error` side is unreachable. -/
def deepSeekSendChat (o : TransportOutcome) : Except String ProviderResponse :=
  match o with
  | TransportOutcome.success reply =>
    Except.ok
      { message :=
          { role := Role.assistant, content := reply.content.getD ""
            toolCalls := reply.toolCalls }
        usage := parseUsage reply
        toolCalls := reply.toolCalls }
  | TransportOutcome.failure _ isAxios apiMessage message =>
    Except.ok
      { message :=
          { role := Role.assistant
            content := "❌ DeepSeek error: " ++ friendlyText isAxios apiMessage message } }

/-- `OpenAIProvider.sendChatCompletionsAPI` from the `try` on: the
`catch` rethrows `new Error('Request cancelled by user')` when
`axios.isCancel(error)`, and otherwise returns the synthetic
`❌ OpenAI error:` assistant message. -/
def openAISendChatCompletions (o : TransportOutcome) : Except String ProviderResponse :=
  match o with
  | TransportOutcome.success reply =>
    Except.ok
      { message :=
          { role := Role.assistant, content := reply.content.getD ""
            toolCalls := reply.toolCalls }
        usage := parseUsage reply
        toolCalls := reply.toolCalls }
  | TransportOutcome.failure cancelled isAxios apiMessage message =>
    if cancelled then Except.error "Request cancelled by user"
    else
      Except.ok
        { message :=
            { role := Role.assistant
              content := "❌ OpenAI error: " ++ friendlyText isAxios apiMessage message } }

/-! ## Concrete instances used by witnesses and counterexamples -/

/-- The `ContextManager` constructor defaults (`options = {}`). -/
def cmDefaults : CMState :=
  { enabled := true, optimizedActions := ["read_file"], maxInstances := 1,
    summaryEnabled := true, summaryThreshold := 40, summaryRetention := 35,
    summaryPrefix := "Context summary (auto-generated):", summaryMaxLineLength := 300,
    summaryTokenThreshold := none, summaryLines := [], summaryHashes := [] }

/-- A system turn. -/
def sysMsg : ConversationMessage := { role := Role.system, content := "sys" }

/-- A user turn. -/
def usr (c : String) : ConversationMessage := { role := Role.user, content := c }

/-- A plain assistant turn. -/
def asst (c : String) : ConversationMessage := { role := Role.assistant, content := c }

/-- One scripted `read_file` tool call. -/
def rfCall : ToolFunctionCall :=
  { id := some "call-1", type := some "function"
    function := some { name := "read_file", arguments := "{}" } }

/-- One scripted `write_file` tool call. -/
def wfCall : ToolFunctionCall :=
  { id := some "call-2", type := some "function"
    function := some { name := "write_file", arguments := "{}" } }

/-- Threshold 12, retention 6: the package defaults of
`contextSummaryThreshold` and `contextSummaryRetention`. -/
def stC3 : CMState := { cmDefaults with summaryThreshold := 12, summaryRetention := 6 }

/-- Thirteen turns: a system turn plus twelve content turns — the
spec's length trigger (length excluding the system turn, 12, is not
greater than the threshold 12), with no usage recorded anywhere. -/
def msgsC3 : List ConversationMessage :=
  [sysMsg, usr "u1", asst "a1", usr "u2", asst "a2", usr "u3", asst "a3",
   usr "u4", asst "a4", usr "u5", asst "a5", usr "u6", asst "a6"]

/-- Force threshold 40000 on top of the `stC3` settings. -/
def stScenario : CMState := { stC3 with summaryTokenThreshold := some 40000 }

/-- The spec's scenario transcript: four turns, 45000 total tokens on
the latest assistant turn. -/
def msgsScenario : List ConversationMessage :=
  [sysMsg, usr "hi",
   { role := Role.assistant, content := "working", usage := some { totalTokens := some 45000 } },
   usr "go"]

/-- Retention 8 with a low token force threshold. -/
def stC4 : CMState := { cmDefaults with summaryRetention := 8, summaryTokenThreshold := some 1000 }

/-- Ten turns holding two tool-call/tool-result pairs, at (1,2) and
(4,5); the naive boundary `10 - 8 = 2` lands inside the first pair and
the forced fallback boundary lands inside the second. -/
def msgsC4 : List ConversationMessage :=
  [sysMsg,
   { role := Role.assistant, content := "reading", toolCalls := some [rfCall] },
   { role := Role.tool, content := "Tool result for read_file: data", name := some "read_file" },
   usr "next",
   { role := Role.assistant, content := "writing", toolCalls := some [wfCall] },
   { role := Role.tool, content := "ok", name := some "write_file" },
   usr "more",
   asst "answer",
   usr "again",
   { role := Role.assistant, content := "final", usage := some { totalTokens := some 5000 } }]

/-- Retention 2 with a small length threshold, for the amended C4
witness (no force trigger configured). -/
def stC4W : CMState := { cmDefaults with summaryRetention := 2, summaryThreshold := 3 }

/-- Naive boundary `5 - 2 = 3` lands on the tool member of the pair
(2,3); the walk-back moves the cut to 2, keeping the pair together. -/
def msgsC4W : List ConversationMessage :=
  [sysMsg, usr "hello",
   { role := Role.assistant, content := "reading", toolCalls := some [rfCall] },
   { role := Role.tool, content := "Tool result for read_file: data", name := some "read_file" },
   usr "thanks"]

/-- Default compaction options plus a 40000-token force threshold. -/
def stC5 : CMState := { cmDefaults with summaryTokenThreshold := some 40000 }

/-- Ten distinct turns whose last assistant turn reports 50000 tokens,
so the force trigger fires on every pass. -/
def msgsC5 : List ConversationMessage :=
  [sysMsg, usr "u1", asst "a1", usr "u2", asst "a2", usr "u3", asst "a3", usr "u4", asst "a4",
   { role := Role.assistant, content := "done", usage := some { totalTokens := some 50000 } }]

/-- A state that already accumulated one summary line. -/
def stC5W : CMState :=
  { cmDefaults with summaryLines := ["• user: x"], summaryHashes := [hashSummary "• user: x"] }

/-- An assistant turn whose content matches the dedup regular
expression (`Tool:` followed by a literal backslash) with the
optimizable capture `read_file`. -/
def aC : ConversationMessage := { role := Role.assistant, content := "Tool:\\read_file src/main.ts" }

/-- Two identical assistant/tool pairs around otherwise-unique turns. -/
def msgsC2 : List ConversationMessage :=
  [sysMsg, aC, { role := Role.tool, content := "r1", name := some "read_file" },
   aC, { role := Role.tool, content := "r2", name := some "read_file" }, usr "done"]

/-- The dedup key of both `aC` occurrences. -/
def keyC2 : String := "read_file|Tool:\\read_file src/main.ts"

/-- Default manager options for the dedup witness. -/
def stC2 : CMState := cmDefaults

/-- A transcript carrying an embedded summary message. -/
def msgsC6 : List ConversationMessage :=
  [sysMsg,
   { role := Role.assistant, content := "Context summary (auto-generated):\n• user: hi" },
   usr "hi", asst "ok"]

/-- The bullet line embedded in `msgsC6`. -/
def bC6 : String := "• user: hi"

/-- A length-2 transcript whose usage would cross the force threshold
were the early return not taken. -/
def msgsC10 : List ConversationMessage :=
  [sysMsg, { role := Role.assistant, content := "big", usage := some { totalTokens := some 99999 } }]

/-- A provider response that always requests the no-op `read_file`
tool again, as both the outcome message and the outcome field. -/
def scriptedOutcome : PromptOutcome :=
  { message := { role := Role.assistant, content := "", toolCalls := some [rfCall] }
    toolCalls := some [rfCall] }

/-- The scripted adapter of the loop-termination property: every
continuation call returns `scriptedOutcome`. -/
def alwaysToolScript : Nat → Except String PromptOutcome := fun _ => Except.ok scriptedOutcome

/-- A batch of two tool calls in one outcome. -/
def twoCallOutcome : PromptOutcome :=
  { message := { role := Role.assistant, content := "", toolCalls := some [rfCall, wfCall] }
    toolCalls := some [rfCall, wfCall] }

/-- A final outcome carrying no tool calls. -/
def finalOutcome : PromptOutcome := { message := asst "done" }

/-- A script whose first continuation already ends the conversation. -/
def stopScript : Nat → Except String PromptOutcome := fun _ => Except.ok finalOutcome

/-! ## Helper lemmas -/

/-- Rehydration touches only the two summary fields of the manager. -/
theorem hydrate_only_summary (st : CMState) (msgs : List ConversationMessage) :
    ∃ L H, hydrateSummaryFromMessages st msgs =
      { st with summaryLines := L, summaryHashes := H } := by
  unfold hydrateSummaryFromMessages
  split
  · exact ⟨st.summaryLines, st.summaryHashes, rfl⟩
  · split
    · exact ⟨st.summaryLines, st.summaryHashes, rfl⟩
    · dsimp only
      split <;> (try split) <;>
        first
          | exact ⟨st.summaryLines, st.summaryHashes, rfl⟩
          | exact ⟨_, _, rfl⟩

/-- The fuelled loop under the always-tool-call script never exits and
issues one continuation call per iteration. -/
theorem dispatchGo_always (fuel : Nat) : ∀ (k : Nat) (ex : List String),
    (dispatchGo alwaysToolScript fuel scriptedOutcome k ex).finished = false ∧
    (dispatchGo alwaysToolScript fuel scriptedOutcome k ex).continuations = k + fuel := by
  induction fuel with
  | zero => intro k ex; exact ⟨rfl, rfl⟩
  | succ n ih =>
    intro k ex
    have step : dispatchGo alwaysToolScript (n + 1) scriptedOutcome k ex =
        dispatchGo alwaysToolScript n scriptedOutcome (k + 1)
          (ex ++ runBatch (getToolCalls scriptedOutcome)) := by
      rfl
    rw [step]
    refine ⟨(ih (k + 1) _).1, ?_⟩
    rw [(ih (k + 1) _).2]
    omega

/-! ## Claim theorems -/

/-- C1: the spec requires the dispatcher to stop issuing continuation
calls after the configured max-iteration count when a scripted provider
always returns a tool call referencing a valid registered tool.  The
`processOutcome` loop of `extension.ts` contains no iteration counter
at all (the `maxIterations` setting of `SettingsManager` is read and
surfaced but never consulted), so for every configured count the loop
is still running — and has already issued more continuation calls than
the configured count — after `maxIterations + 1` iterations. -/
theorem c1_loop_never_stops (maxIterations : Nat) :
    (dispatchRun alwaysToolScript scriptedOutcome (maxIterations + 1)).finished = false ∧
    (dispatchRun alwaysToolScript scriptedOutcome (maxIterations + 1)).continuations
      = maxIterations + 1 ∧
    settingsDefaultMaxIterations <
      (dispatchRun alwaysToolScript scriptedOutcome (settingsDefaultMaxIterations + 1)).continuations := by
  have h := dispatchGo_always (maxIterations + 1) 0 []
  have h12 := dispatchGo_always (settingsDefaultMaxIterations + 1) 0 []
  refine ⟨h.1, ?_, ?_⟩
  · rw [dispatchRun, h.2]
    omega
  · rw [dispatchRun, h12.2]
    decide

/-- C9: the spec requires cancellation to be observable before each
tool invocation of a batch, so that a signal fired after the first tool
executes prevents the second executor from running and yields a
cancelled outcome.  The `processOutcome` loop carries no cancellation
signal whatsoever: in a batch of two valid calls the second executor is
always invoked, and the run finishes as an ordinary completion (the
trace has no cancelled outcome to report). -/
theorem c9_batch_ignores_cancellation :
    (dispatchRun stopScript twoCallOutcome 2).executed = ["read_file", "write_file"] ∧
    (dispatchRun stopScript twoCallOutcome 2).finished = true ∧
    (dispatchRun stopScript twoCallOutcome 2).lastMessage = finalOutcome.message := by
  refine ⟨?_, rfl, rfl⟩
  rfl

/-- C8 counterexample: on a cancelled request the DeepSeek adapter does
not propagate a cancellation signal — its catch-all converts the
cancellation into an ordinary synthetic error message. -/
theorem c8_deepseek_swallows_cancellation :
    deepSeekSendChat (TransportOutcome.failure true true none "canceled") =
      Except.ok { message :=
        { role := Role.assistant, content := "❌ DeepSeek error: canceled" } } := by
  rfl

/-- C8 amended: for every transport-level failure the DeepSeek adapter
never throws — it always returns the `❌ DeepSeek error:` synthetic
assistant message, cancellation included — while the OpenAI
chat-completions adapter propagates cancellation as a thrown error and
converts every other failure into the `❌ OpenAI error:` synthetic
assistant message. -/
theorem c8_failure_recovery_amended (cancelled isAxios : Bool)
    (apiMessage : Option String) (message : String) :
    deepSeekSendChat (TransportOutcome.failure cancelled isAxios apiMessage message) =
      Except.ok { message :=
        { role := Role.assistant
          content := "❌ DeepSeek error: " ++ friendlyText isAxios apiMessage message } } ∧
    openAISendChatCompletions (TransportOutcome.failure cancelled isAxios apiMessage message) =
      (if cancelled then Except.error "Request cancelled by user"
       else Except.ok { message :=
        { role := Role.assistant
          content := "❌ OpenAI error: " ++ friendlyText isAxios apiMessage message } }) := by
  exact ⟨rfl, rfl⟩

/-- C10: a transcript of at most two messages, or a disabled optimizer,
makes `optimize` return its input unchanged with all flags cleared, no
matter what the thresholds would otherwise say. -/
theorem c10_short_or_disabled_noop (st : CMState) (msgs : List ConversationMessage)
    (h : msgs.length ≤ 2 ∨ st.enabled = false) :
    (cmOptimize st msgs).1.messages = msgs ∧
    (cmOptimize st msgs).1.optimized = false ∧
    (cmOptimize st msgs).1.removed = 0 ∧
    (cmOptimize st msgs).1.summaryUpdated = false := by
  obtain ⟨L, H, hh⟩ := hydrate_only_summary st msgs
  have hcond : (!(hydrateSummaryFromMessages st msgs).enabled
      || decide (msgs.length ≤ 2)) = true := by
    rw [hh]
    rcases h with h | h
    · simp [h]
    · simp [h]
  unfold cmOptimize
  rw [if_pos hcond]
  exact ⟨rfl, rfl, rfl, rfl⟩

/-- C10 witness: the guard and the conclusion at a two-message
transcript whose usage is far beyond the 40000-token force threshold. -/
theorem c10_short_or_disabled_noop_witness :
    (msgsC10.length ≤ 2 ∨ stC5.enabled = false) ∧
    ((cmOptimize stC5 msgsC10).1.messages = msgsC10 ∧
     (cmOptimize stC5 msgsC10).1.optimized = false ∧
     (cmOptimize stC5 msgsC10).1.removed = 0 ∧
     (cmOptimize stC5 msgsC10).1.summaryUpdated = false) :=
  ⟨Or.inl (by decide), c10_short_or_disabled_noop stC5 msgsC10 (Or.inl (by decide))⟩

set_option maxRecDepth 100000 in
/-- C3 counterexample: with the package-default length threshold 12 and
no token threshold configured, a transcript of a system turn plus 12
content turns has length 12 excluding the system turn — not *greater*
than the threshold, so by the claim summarization must not fire — yet
`optimize` runs the summarization pass and updates the summary, because
the code compares the transcript length *including* the system turn
(`messages.length <= this.summaryThreshold`) against the threshold. -/
theorem c3_length_trigger_counterexample :
    (cmOptimize stC3 msgsC3).1.summaryUpdated = true ∧
    ¬(msgsC3.length - 1 > stC3.summaryThreshold) ∧
    stC3.summaryTokenThreshold = none := by
  refine ⟨by decide, by decide, rfl⟩

set_option maxRecDepth 100000 in
/-- C3 amended: the summarization pass fires if and only if the
transcript length *including* the system turn exceeds
`summaryThreshold`, or a positive `summaryTokenThreshold` is configured
and the most recently recorded usage total meets it; the spec's
force-trigger scenario (4 turns, threshold 12, force threshold 40000,
latest usage 45000) does fire and updates the summary. -/
theorem c3_trigger_amended :
    (∀ (st : CMState) (msgs : List ConversationMessage),
        summaryTriggered st msgs (shouldForceSummaryByTokens st msgs) = true ↔
          (st.summaryThreshold < msgs.length ∨
            ∃ t, st.summaryTokenThreshold = some t ∧ 0 < t ∧
              t ≤ getLastUsageTokens msgs)) ∧
    (cmOptimize stScenario msgsScenario).1.summaryUpdated = true ∧
    msgsScenario.length = 4 ∧ stScenario.summaryThreshold = 12 ∧
    stScenario.summaryTokenThreshold = some 40000 ∧
    getLastUsageTokens msgsScenario = 45000 := by
  refine ⟨?_, by decide, rfl, rfl, rfl, by decide⟩
  intro st msgs
  unfold summaryTriggered shouldForceSummaryByTokens
  cases h : st.summaryTokenThreshold with
  | none => simp
  | some t =>
    by_cases ht : t = 0
    · subst ht; simp
    · have hpos : 0 < t := Nat.pos_of_ne_zero ht
      simp [ht, hpos]
      tauto

/-- An assistant turn carrying pending tool calls has the assistant
role. -/
theorem hasPendingToolCalls_role {m : ConversationMessage}
    (h : hasPendingToolCalls m = true) : m.role = Role.assistant := by
  unfold hasPendingToolCalls at h
  simp only [Bool.and_eq_true, decide_eq_true_eq] at h
  exact h.1

set_option maxRecDepth 400000 in
/-- C4 counterexample: on `msgsC4` the summarization pass fires by
token force, the naive tail boundary `10 - 8 = 2` lands inside the
tool-call/tool-result pair at (1,2), yet the chosen cut point is 5 —
the forced midpoint fallback — which separates the assistant turn 4
(carrying pending tool calls) from its tool-result turn 5. -/
theorem c4_cut_separates_pair_counterexample :
    shouldForceSummaryByTokens stC4 msgsC4 = true ∧
    summaryTriggered stC4 msgsC4 (shouldForceSummaryByTokens stC4 msgsC4) = true ∧
    msgsC4.length - stC4.summaryRetention = 2 ∧
    hasPendingToolCalls (msgsC4.getD 1 dummyMessage) = true ∧
    (msgsC4.getD 2 dummyMessage).role = Role.tool ∧
    cutIndex stC4 msgsC4 (shouldForceSummaryByTokens stC4 msgsC4) = 5 ∧
    hasPendingToolCalls (msgsC4.getD 4 dummyMessage) = true ∧
    (msgsC4.getD 5 dummyMessage).role = Role.tool := by
  refine ⟨by decide, by decide, by decide, by decide, by decide, by decide, by decide, by decide⟩

/-- C4 amended: whenever the forced midpoint fallback does not
reposition the boundary (`force && startIndex <= 1 && len > 2` fails
after the walk-back), the chosen cut point never separates an
assistant turn carrying pending tool calls from the tool turn right
after it — in particular whenever the naive boundary lands inside such
a pair, the walked-back cut keeps both members on the same side.  (The
counterexample shows the fallback itself can still split a pair.) -/
theorem c4_cut_safety_amended (st : CMState) (msgs : List ConversationMessage) (force : Bool)
    (h : forceBumpApplies msgs force (walkedStart st msgs) = false) :
    ¬(0 < cutIndex st msgs force ∧ cutIndex st msgs force < msgs.length ∧
      hasPendingToolCalls (msgs.getD (cutIndex st msgs force - 1) dummyMessage) = true ∧
      (msgs.getD (cutIndex st msgs force) dummyMessage).role = Role.tool) := by
  have hcut : cutIndex st msgs force = walkedStart st msgs := by
    unfold cutIndex
    dsimp only
    rw [h]
    simp
  rw [hcut]
  rintro ⟨hpos, hlt, hpend, hrole⟩
  by_cases h0 : 0 < msgs.length - st.summaryRetention
  case neg =>
    have hz : walkedStart st msgs = msgs.length - st.summaryRetention := by
      unfold walkedStart
      dsimp only
      rw [if_neg h0]
    rw [hz] at hpos
    omega
  case pos =>
    have hws : walkedStart st msgs
        = adjustAssistant msgs (walkBackTool msgs (msgs.length - st.summaryRetention)) := by
      unfold walkedStart
      dsimp only
      rw [if_pos h0]
    set w := walkBackTool msgs (msgs.length - st.summaryRetention) with hw
    rw [hws] at hpos hlt hpend hrole
    unfold adjustAssistant at hpos hlt hpend hrole
    by_cases hstep : (decide (0 < w) && decide (w ≤ msgs.length)
        && hasPendingToolCalls (msgs.getD (w - 1) dummyMessage)) = true
    case pos =>
      rw [if_pos hstep] at hrole
      simp only [Bool.and_eq_true] at hstep
      have hassist := hasPendingToolCalls_role hstep.2
      rw [hassist] at hrole
      exact absurd hrole (by decide)
    case neg =>
      rw [if_neg hstep] at hpos hlt hpend
      apply hstep
      simp only [Bool.and_eq_true, decide_eq_true_eq]
      exact ⟨⟨hpos, Nat.le_of_lt hlt⟩, hpend⟩

/-- C4 amended witness: with retention 2 and no force trigger, the
naive boundary `5 - 2 = 3` of `msgsC4W` lands on the tool member of the
pair (2,3); the fallback does not apply and the cut is safe. -/
theorem c4_cut_safety_amended_witness :
    forceBumpApplies msgsC4W false (walkedStart stC4W msgsC4W) = false ∧
    cutIndex stC4W msgsC4W false = 2 ∧
    ¬(0 < cutIndex stC4W msgsC4W false ∧ cutIndex stC4W msgsC4W false < msgsC4W.length ∧
      hasPendingToolCalls (msgsC4W.getD (cutIndex stC4W msgsC4W false - 1) dummyMessage) = true ∧
      (msgsC4W.getD (cutIndex stC4W msgsC4W false) dummyMessage).role = Role.tool) :=
  ⟨by decide, by decide, c4_cut_safety_amended stC4W msgsC4W false (by decide)⟩

/-- The head loop never removes a fingerprint from the running set. -/
theorem collectStep_hashes_mono (st : CMState) (acc : List String × List String)
    (m : ConversationMessage) (h : String) (hmem : h ∈ acc.2) :
    h ∈ (collectStep st acc m).2 := by
  unfold collectStep
  split
  · exact hmem
  · dsimp only
    split
    · exact hmem
    · exact List.mem_append_left _ hmem

/-- Folded version of `collectStep_hashes_mono`. -/
theorem collectFold_hashes_mono (st : CMState) (h : String) :
    ∀ (head : List ConversationMessage) (acc : List String × List String),
      h ∈ acc.2 → h ∈ (head.foldl (collectStep st) acc).2 := by
  intro head
  induction head with
  | nil => intro acc hmem; exact hmem
  | cons m t ih =>
    intro acc hmem
    rw [List.foldl_cons]
    exact ih _ (collectStep_hashes_mono st acc m h hmem)

/-- Every line the head loop emits has a fingerprint that was outside
any set `S` whose members are all in the running fingerprint set: the
`!summaryHashes.has(hash)` guard filters them out. -/
theorem collectFold_fresh (st : CMState) (S : List String) :
    ∀ (head : List ConversationMessage) (acc : List String × List String),
      (∀ x ∈ acc.1, hashSummary x ∉ S) → (∀ h ∈ S, h ∈ acc.2) →
      ∀ x ∈ (head.foldl (collectStep st) acc).1, hashSummary x ∉ S := by
  intro head
  induction head with
  | nil => intro acc h1 _ x hx; exact h1 x hx
  | cons m t ih =>
    intro acc h1 h2 x hx
    rw [List.foldl_cons] at hx
    refine ih (collectStep st acc m) ?_ ?_ x hx
    · intro y hy
      unfold collectStep at hy
      rcases hb : bulletFor st m with _ | b
      · rw [hb] at hy
        exact h1 y hy
      · rw [hb] at hy
        dsimp only at hy
        by_cases hc : acc.2.contains (hashSummary b) = true
        · rw [if_pos hc] at hy
          exact h1 y hy
        · rw [if_neg hc] at hy
          rcases List.mem_append.mp hy with hy | hy
          · exact h1 y hy
          · have hyb : y = b := List.mem_singleton.mp hy
            subst hyb
            intro hS
            exact hc (List.elem_iff.mpr (h2 _ hS))
    · intro hh hhS
      exact collectStep_hashes_mono st acc m hh (h2 hh hhS)

/-- A manager that already holds summary lines is not rehydrated. -/
theorem hydrate_of_nonempty (st : CMState) (msgs : List ConversationMessage)
    (hne : st.summaryLines ≠ []) : hydrateSummaryFromMessages st msgs = st := by
  unfold hydrateSummaryFromMessages
  rw [if_pos]
  simp [List.isEmpty_iff, hne]

/-- The summarization pass either leaves the manager untouched or
appends the non-empty batch of freshly collected lines, installing the
grown fingerprint set. -/
theorem applySummaries_state (st : CMState) (msgs : List ConversationMessage) (force : Bool) :
    (applySummaries st msgs force).2 = st ∨
    ((applySummaries st msgs force).2 = { st with
        summaryLines := st.summaryLines ++
          (collectNewLines st (msgs.take (cutIndex st msgs force))).1
        summaryHashes := (collectNewLines st (msgs.take (cutIndex st msgs force))).2 } ∧
      (collectNewLines st (msgs.take (cutIndex st msgs force))).1 ≠ []) := by
  unfold applySummaries
  split
  · left; rfl
  · dsimp only
    split
    · split
      · left; rfl
      · left; rfl
    · right
      refine ⟨rfl, ?_⟩
      rename_i hne
      simp [List.isEmpty_iff] at hne
      exact hne

/-- `optimize` changes the manager state only through rehydration or
the summarization pass. -/
theorem cmOptimize_state (st : CMState) (msgs : List ConversationMessage) :
    (cmOptimize st msgs).2 = hydrateSummaryFromMessages st msgs ∨
    ∃ filtered force,
      (cmOptimize st msgs).2 =
        (applySummaries (hydrateSummaryFromMessages st msgs) filtered force).2 := by
  unfold cmOptimize
  dsimp only
  split
  · left; rfl
  · split
    · right; exact ⟨_, _, rfl⟩
    · left; rfl

set_option maxRecDepth 1000000 in
/-- C5 counterexample: on `msgsC5` (force trigger met on every pass)
the first `optimize` call accumulates 4 summary lines and keeps 5 tail
turns behind the summary; the second call — with no message added in
between — re-fires by token force, its midpoint fallback uncovers a
turn the first pass had not summarized, and `summaryLines` grows from 4
to 5 (the fingerprint set grows with it), so compaction is not
idempotent. -/
theorem c5_second_pass_grows_counterexample :
    (cmOptimize stC5 msgsC5).2.summaryLines.length = 4 ∧
    (cmOptimize stC5 msgsC5).2.summaryHashes.length = 4 ∧
    (cmOptimize (cmOptimize stC5 msgsC5).2 (cmOptimize stC5 msgsC5).1.messages).1.summaryUpdated
      = true ∧
    (cmOptimize (cmOptimize stC5 msgsC5).2 (cmOptimize stC5 msgsC5).1.messages).2.summaryLines.length
      = 5 ∧
    (cmOptimize (cmOptimize stC5 msgsC5).2 (cmOptimize stC5 msgsC5).1.messages).2.summaryHashes.length
      = 5 := by
  exact ⟨by decide, by decide, by decide, by decide, by decide⟩

/-- C5 amended: a second `optimize` call on a manager that already
holds summary lines can only *extend* the summary — the old lines stay
as a prefix, every appended line carries a fingerprint absent from the
old set (so no bullet is ever re-emitted), the old fingerprints all
survive, and when nothing new is appended the manager state is exactly
unchanged.  Growth is possible (the counterexample shows it) precisely
when the pass uncovers head turns not summarized before. -/
theorem c5_compaction_monotone_amended (st : CMState) (msgs : List ConversationMessage)
    (hne : st.summaryLines ≠ []) :
    ∃ added,
      (cmOptimize st msgs).2.summaryLines = st.summaryLines ++ added ∧
      (∀ b ∈ added, hashSummary b ∉ st.summaryHashes) ∧
      (∀ h ∈ st.summaryHashes, h ∈ (cmOptimize st msgs).2.summaryHashes) ∧
      (added = [] → (cmOptimize st msgs).2 = st) := by
  have hst : hydrateSummaryFromMessages st msgs = st := hydrate_of_nonempty st msgs hne
  rcases cmOptimize_state st msgs with h | ⟨filtered, force, h⟩
  · rw [hst] at h
    refine ⟨[], by rw [h, List.append_nil], by simp, by rw [h]; exact fun h hm => hm,
      fun _ => h⟩
  · rw [hst] at h
    rcases applySummaries_state st filtered force with ha | ⟨ha, hne2⟩
    · rw [ha] at h
      refine ⟨[], by rw [h, List.append_nil], by simp, by rw [h]; exact fun h hm => hm,
        fun _ => h⟩
    · rw [ha] at h
      refine ⟨(collectNewLines st (filtered.take (cutIndex st filtered force))).1,
        by rw [h], ?_, ?_, fun hc => absurd hc hne2⟩
      · intro b hb
        exact collectFold_fresh st st.summaryHashes _ ([], st.summaryHashes)
          (by intro x hx; cases hx) (fun _ hh => hh) b hb
      · intro hh hhm
        rw [h]
        exact collectFold_hashes_mono st hh _ ([], st.summaryHashes) hhm

/-- C5 amended witness: the theorem applied to a manager holding one
summary line and an empty transcript. -/
theorem c5_compaction_monotone_amended_witness :
    stC5W.summaryLines ≠ [] ∧
    (∃ added,
      (cmOptimize stC5W []).2.summaryLines = stC5W.summaryLines ++ added ∧
      (∀ b ∈ added, hashSummary b ∉ stC5W.summaryHashes) ∧
      (∀ h ∈ stC5W.summaryHashes, h ∈ (cmOptimize stC5W []).2.summaryHashes) ∧
      (added = [] → (cmOptimize stC5W []).2 = stC5W)) :=
  ⟨by decide, c5_compaction_monotone_amended stC5W [] (by decide)⟩

/-- Rehydration installs the fingerprint of every line it parses out of
the embedded summary message. -/
theorem hydrate_line_hash (st0 : CMState) (msgs : List ConversationMessage) (b : String)
    (h0 : st0.summaryLines = [])
    (hb : b ∈ (hydrateSummaryFromMessages st0 msgs).summaryLines) :
    hashSummary b ∈ (hydrateSummaryFromMessages st0 msgs).summaryHashes := by
  revert hb
  unfold hydrateSummaryFromMessages
  split
  · intro hb
    rw [h0] at hb
    cases hb
  · split
    · intro hb
      rw [h0] at hb
      cases hb
    · dsimp only
      split <;> (try split) <;> intro hb <;>
        first
          | (rw [h0] at hb; cases hb)
          | exact List.mem_map_of_mem hashSummary hb

/-- C6: loading a transcript that embeds a summary message into a fresh
manager rehydrates `summaryLines` and `summaryHashes`; a subsequent
summarization pass over any head never re-emits a bullet line that was
already present in the embedded summary, because its fingerprint is
already in the set the head loop checks. -/
theorem c6_rehydration_no_duplicate (st0 : CMState) (h0 : st0.summaryLines = [])
    (msgs : List ConversationMessage) (b : String)
    (hb : b ∈ (hydrateSummaryFromMessages st0 msgs).summaryLines)
    (head : List ConversationMessage) :
    b ∉ (collectNewLines (hydrateSummaryFromMessages st0 msgs) head).1 := by
  intro hbin
  have hfresh := collectFold_fresh (hydrateSummaryFromMessages st0 msgs)
    (hydrateSummaryFromMessages st0 msgs).summaryHashes head
    ([], (hydrateSummaryFromMessages st0 msgs).summaryHashes)
    (by intro x hx; cases hx) (fun _ hh => hh) b hbin
  exact hfresh (hydrate_line_hash st0 msgs b h0 hb)

/-- C6 witness: a fresh default manager, a transcript embedding the
summary line `• user: hi`, and a head turn that would render exactly
that bullet again: the hydrated pass does not re-emit it. -/
theorem c6_rehydration_no_duplicate_witness :
    cmDefaults.summaryLines = [] ∧
    bC6 ∈ (hydrateSummaryFromMessages cmDefaults msgsC6).summaryLines ∧
    bulletFor (hydrateSummaryFromMessages cmDefaults msgsC6) (usr "hi") = some bC6 ∧
    bC6 ∉ (collectNewLines (hydrateSummaryFromMessages cmDefaults msgsC6) [usr "hi"]).1 :=
  ⟨rfl, by decide, by decide,
    c6_rehydration_no_duplicate cmDefaults rfl msgsC6 bC6 (by decide) [usr "hi"]⟩

/-- The system turn at index 0 is never in the dedup removal set. -/
theorem removedIndex_zero (actions : List String) (maxInstances : Nat)
    (msgs : List ConversationMessage)
    (h : (msgs.getD 0 dummyMessage).role = Role.system) :
    removedIndex actions maxInstances msgs 0 = false := by
  rcases msgs with _ | ⟨m0, rest⟩
  · rfl
  · simp only [List.getD_cons_zero] at h
    unfold removedIndex staleAt messageKey
    simp [h]

/-- Collapsing a system-first transcript keeps the system turn first. -/
theorem dedup_head (actions : List String) (maxInstances : Nat)
    (m : ConversationMessage) (rest : List ConversationMessage)
    (hrole : m.role = Role.system) :
    ∃ t, dedupMessages actions maxInstances (m :: rest) = m :: t := by
  have hz : removedIndex actions maxInstances (m :: rest) 0 = false :=
    removedIndex_zero actions maxInstances (m :: rest) (by simpa using hrole)
  unfold dedupMessages filterIdx
  simp [hz]

/-- The summarization pass keeps the first turn of its input first. -/
theorem applySummaries_head (st : CMState) (m : ConversationMessage)
    (rest : List ConversationMessage) (force : Bool) :
    ∃ t, (applySummaries st (m :: rest) force).1.messages = m :: t := by
  unfold applySummaries
  split
  · exact ⟨rest, rfl⟩
  · dsimp only
    split
    · split
      · exact ⟨rest, rfl⟩
      · exact ⟨_, rfl⟩
    · exact ⟨_, rfl⟩

/-- `optimize` keeps a system-first transcript non-empty and
system-first. -/
theorem cmOptimize_head (st : CMState) (m : ConversationMessage)
    (rest : List ConversationMessage) (hrole : m.role = Role.system) :
    ∃ t, (cmOptimize st (m :: rest)).1.messages = m :: t := by
  unfold cmOptimize
  dsimp only
  split
  · exact ⟨rest, rfl⟩
  · obtain ⟨t1, hd⟩ := dedup_head (hydrateSummaryFromMessages st (m :: rest)).optimizedActions
      (hydrateSummaryFromMessages st (m :: rest)).maxInstances m rest hrole
    rw [hd]
    split
    · exact applySummaries_head _ m t1 _
    · exact ⟨t1, rfl⟩

/-- `initialize` establishes the invariant. -/
theorem chInit_inv (s : HandlerState) (sys : String) : transcriptInv (chInit s sys) :=
  ⟨by simp [chInit], rfl⟩

/-- `ConversationHandler.optimize` preserves the invariant. -/
theorem chOptimize_inv (s : HandlerState) (h : transcriptInv s) :
    transcriptInv (chOptimize s) := by
  obtain ⟨hne, hrole⟩ := h
  rcases hh : s.history with _ | ⟨m, rest⟩
  · exact absurd hh hne
  · rw [hh] at hrole
    simp only [List.headD_cons] at hrole
    unfold chOptimize
    rw [hh]
    dsimp only
    split
    · obtain ⟨t, ht⟩ := cmOptimize_head s.cm m rest hrole
      refine ⟨by simp [ht], ?_⟩
      simp [ht, hrole]
    · exact ⟨by simp [hh], by simp [hh, hrole]⟩

/-- `load` establishes the invariant on any input. -/
theorem chLoad_inv (s : HandlerState) (history : List ConversationMessage)
    (fallback : String) : transcriptInv (chLoad s history fallback) := by
  unfold chLoad
  rcases history with _ | ⟨first, rest⟩
  · exact chInit_inv _ _
  · dsimp only
    split
    · exact chInit_inv _ _
    · rename_i hrole
      rw [not_not] at hrole
      exact chOptimize_inv _ ⟨by simp, by simpa using hrole⟩

/-- Every `ConversationHandler` operation preserves the invariant. -/
theorem applyOp_inv (s : HandlerState) (op : HandlerOp) (h : transcriptInv s) :
    transcriptInv (applyOp s op) := by
  obtain ⟨hne, hrole⟩ := h
  rcases hh : s.history with _ | ⟨m, rest⟩
  · exact absurd hh hne
  · rw [hh] at hrole
    simp only [List.headD_cons] at hrole
    cases op with
    | startConversation sys => exact chInit_inv s sys
    | addUser c => exact ⟨by simp [applyOp, chAddUser], by simp [applyOp, chAddUser, hh, hrole]⟩
    | addAssistant c u t =>
      exact ⟨by simp [applyOp, chAddAssistant], by simp [applyOp, chAddAssistant, hh, hrole]⟩
    | addToolResult c n i =>
      exact ⟨by simp [applyOp, chAddToolResult], by simp [applyOp, chAddToolResult, hh, hrole]⟩
    | loadHistory hist f => exact chLoad_inv s hist f
    | runOptimize => exact chOptimize_inv s ⟨hne, by rw [hh]; simpa using hrole⟩

/-- The invariant survives any operation sequence. -/
theorem foldl_applyOp_inv (ops : List HandlerOp) :
    ∀ (s : HandlerState), transcriptInv s → transcriptInv (ops.foldl applyOp s) := by
  induction ops with
  | nil => intro s h; exact h
  | cons op t ih =>
    intro s h
    rw [List.foldl_cons]
    exact ih _ (applyOp_inv s op h)

/-- C7: after `initialize` and any sequence of `ConversationHandler`
operations (adding user, assistant or tool turns, loading a persisted
transcript — malformed or not — and optimizing), the transcript is
non-empty and its first element has the system role. -/
theorem c7_transcript_invariant (s0 : HandlerState) (systemPrompt : String)
    (ops : List HandlerOp) :
    (ops.foldl applyOp (chInit s0 systemPrompt)).history ≠ [] ∧
    ((ops.foldl applyOp (chInit s0 systemPrompt)).history.headD dummyMessage).role
      = Role.system :=
  foldl_applyOp_inv ops (chInit s0 systemPrompt) (chInit_inv s0 systemPrompt)

/-- A message with a dedup key is an assistant turn. -/
theorem messageKey_some_role (actions : List String) (m : ConversationMessage) (k : String)
    (h : messageKey actions m = some k) : m.role = Role.assistant := by
  unfold messageKey at h
  by_cases hr : m.role = Role.assistant
  · exact hr
  · rw [if_neg hr] at h
    cases h

/-- The out-of-range fallback message has no dedup key. -/
theorem messageKey_dummy (actions : List String) :
    messageKey actions dummyMessage = none := by
  unfold messageKey dummyMessage
  simp

/-- Membership in a `toolOccurrences` bucket, relative to the starting
counter. -/
theorem mem_keyIndicesAux (actions : List String) (K : String) :
    ∀ (l : List ConversationMessage) (n i : Nat),
      i ∈ keyIndicesAux actions K l n ↔
        ∃ j, j < l.length ∧ i = n + j ∧
          messageKey actions (l.getD j dummyMessage) = some K := by
  intro l
  induction l with
  | nil =>
    intro n i
    constructor
    · intro h; cases h
    · rintro ⟨j, hj, _, _⟩; cases hj
  | cons m ms ih =>
    intro n i
    unfold keyIndicesAux
    by_cases hk : messageKey actions m = some K
    · rw [if_pos hk]
      constructor
      · intro h
        rcases List.mem_cons.mp h with h | h
        · exact ⟨0, Nat.succ_pos _, by omega, by simpa using hk⟩
        · obtain ⟨j, hj, hij, hkey⟩ := (ih (n + 1) i).mp h
          exact ⟨j + 1, by simp only [List.length_cons] at *; omega, by omega, by simpa using hkey⟩
      · rintro ⟨j, hj, hij, hkey⟩
        rcases j with _ | j
        · exact List.mem_cons.mpr (Or.inl (by omega))
        · refine List.mem_cons.mpr (Or.inr ((ih (n + 1) i).mpr ⟨j, by simp only [List.length_cons] at *; omega, by omega, ?_⟩))
          simpa using hkey
    · rw [if_neg hk]
      constructor
      · intro h
        obtain ⟨j, hj, hij, hkey⟩ := (ih (n + 1) i).mp h
        exact ⟨j + 1, by simp only [List.length_cons] at *; omega, by omega, by simpa using hkey⟩
      · rintro ⟨j, hj, hij, hkey⟩
        rcases j with _ | j
        · exact absurd (by simpa using hkey) hk
        · exact (ih (n + 1) i).mpr ⟨j, by simp only [List.length_cons] at *; omega, by omega, by simpa using hkey⟩

/-- Membership in the bucket of key `K` over the whole list. -/
theorem mem_keyIndices (actions : List String) (K : String)
    (msgs : List ConversationMessage) (i : Nat) :
    i ∈ keyIndices actions msgs K ↔
      i < msgs.length ∧ messageKey actions (msgs.getD i dummyMessage) = some K := by
  unfold keyIndices
  rw [mem_keyIndicesAux]
  constructor
  · rintro ⟨j, hj, hij, hkey⟩
    rcases Nat.zero_add j ▸ hij with rfl
    exact ⟨by omega, hkey⟩
  · rintro ⟨hi, hkey⟩
    exact ⟨i, hi, by omega, hkey⟩

/-- Bucket members are at least the starting counter. -/
theorem keyIndicesAux_lb (actions : List String) (K : String)
    (l : List ConversationMessage) (n i : Nat)
    (h : i ∈ keyIndicesAux actions K l n) : n ≤ i := by
  obtain ⟨j, _, hij, _⟩ := (mem_keyIndicesAux actions K l n i).mp h
  omega

/-- A bucket holds no duplicate index. -/
theorem keyIndicesAux_nodup (actions : List String) (K : String) :
    ∀ (l : List ConversationMessage) (n : Nat), (keyIndicesAux actions K l n).Nodup := by
  intro l
  induction l with
  | nil => intro n; exact List.nodup_nil
  | cons m ms ih =>
    intro n
    unfold keyIndicesAux
    split
    · refine List.nodup_cons.mpr ⟨fun hmem => ?_, ih (n + 1)⟩
      have := keyIndicesAux_lb actions K ms (n + 1) n hmem
      omega
    · exact ih (n + 1)

/-- The bucket size counts the matching messages. -/
theorem keyIndicesAux_length (actions : List String) (K : String) :
    ∀ (l : List ConversationMessage) (n : Nat),
      (keyIndicesAux actions K l n).length
        = l.countP (fun m => decide (messageKey actions m = some K)) := by
  intro l
  induction l with
  | nil => intro n; rfl
  | cons m ms ih =>
    intro n
    unfold keyIndicesAux
    by_cases hk : messageKey actions m = some K
    · rw [if_pos hk, List.countP_cons]
      simp [hk, ih (n + 1)]
    · rw [if_neg hk, List.countP_cons]
      simp [hk, ih (n + 1)]

/-- Counting matching messages that survive an indexed filter equals
counting bucket indices accepted by the filter predicate. -/
theorem countP_key_filterIdx (actions : List String) (K : String) (q : Nat → Bool) :
    ∀ (l : List ConversationMessage) (n : Nat),
      (filterIdx q l n).countP (fun m => decide (messageKey actions m = some K))
        = ((keyIndicesAux actions K l n).filter q).length := by
  intro l
  induction l with
  | nil => intro n; rfl
  | cons m ms ih =>
    intro n
    unfold filterIdx keyIndicesAux
    by_cases hq : q n <;> by_cases hk : messageKey actions m = some K
    · rw [if_pos hq, if_pos hk, List.countP_cons]
      simp [hq, hk, ih (n + 1)]
    · rw [if_pos hq, if_neg hk, List.countP_cons]
      simp [hk, ih (n + 1)]
    · rw [if_neg hq, if_pos hk]
      simp [hq, ih (n + 1)]
    · rw [if_neg hq, if_neg hk]
      simp [ih (n + 1)]

/-- Unfolding the stale-membership check at one index. -/
theorem staleAt_iff (actions : List String) (M : Nat) (msgs : List ConversationMessage)
    (j : Nat) :
    staleAt actions M msgs j = true ↔
      ∃ k, messageKey actions (msgs.getD j dummyMessage) = some k ∧
        j ∈ staleIndices actions M msgs k := by
  unfold staleAt
  cases hk : messageKey actions (msgs.getD j dummyMessage) with
  | none => simp
  | some k => simp [List.elem_iff]

/-- A bucket within the limit contributes no stale index. -/
theorem staleIndices_of_le (actions : List String) (M : Nat)
    (msgs : List ConversationMessage) (k : String)
    (h : (keyIndices actions msgs k).length ≤ M) :
    staleIndices actions M msgs k = [] := by
  unfold staleIndices
  rw [if_pos h]

/-- The stale slice of an oversized bucket. -/
theorem staleIndices_of_lt (actions : List String) (M : Nat)
    (msgs : List ConversationMessage) (k : String)
    (h : M < (keyIndices actions msgs k).length) :
    staleIndices actions M msgs k
      = (keyIndices actions msgs k).take ((keyIndices actions msgs k).length - M) := by
  unfold staleIndices
  rw [if_neg (by omega)]

/-- Reading the otherwise-unique side condition. -/
theorem othersWithinLimit_spec (actions : List String) (M : Nat)
    (msgs : List ConversationMessage) (K : String)
    (h : othersWithinLimit actions M msgs K = true) :
    ∀ j k, messageKey actions (msgs.getD j dummyMessage) = some k → k ≠ K →
      (keyIndices actions msgs k).length ≤ M := by
  intro j k hk hne
  by_cases hj : j < msgs.length
  · have hall := List.all_eq_true.mp h _ (List.mem_range.mpr hj)
    rw [hk] at hall
    simp only [Bool.or_eq_true, decide_eq_true_eq] at hall
    rcases hall with hall | hall
    · exact absurd hall hne
    · exact hall
  · rw [List.getD_eq_default _ _ (by omega)] at hk
    rw [messageKey_dummy] at hk
    cases hk

/-- The indexed filter only looks at the predicate pointwise. -/
theorem filterIdx_congr {α : Type} (p q : Nat → Bool) (h : ∀ i, p i = q i) :
    ∀ (l : List α) (n : Nat), filterIdx p l n = filterIdx q l n := by
  intro l
  induction l with
  | nil => intro n; rfl
  | cons x xs ih =>
    intro n
    unfold filterIdx
    rw [h n, ih (n + 1)]

/-- Under the dedup-correctness hypotheses, the `indicesToRemove` set is
exactly the earliest `N - maxInstances` occurrences of the oversized
bucket together with their immediately following tool-result turns. -/
theorem removedIndex_eq_pairs (actions : List String) (M : Nat)
    (msgs : List ConversationMessage) (K : String)
    (h_count : M < (keyIndices actions msgs K).length)
    (h_pairs : ∀ i ∈ keyIndices actions msgs K,
      i + 1 < msgs.length ∧ (msgs.getD (i + 1) dummyMessage).role = Role.tool)
    (h_unique : othersWithinLimit actions M msgs K = true) (i : Nat) :
    removedIndex actions M msgs i
      = ((staleIndices actions M msgs K).flatMap (fun j => [j, j + 1])).contains i := by
  have hiff : removedIndex actions M msgs i = true ↔
      ((staleIndices actions M msgs K).flatMap (fun j => [j, j + 1])).contains i = true := by
    rw [List.elem_iff, List.mem_flatMap]
    unfold removedIndex
    simp only [Bool.or_eq_true, Bool.and_eq_true, decide_eq_true_eq, and_assoc]
    constructor
    · rintro (⟨hlt, hstale⟩ | ⟨hpos, hlt, hrole, hstale⟩)
      · obtain ⟨k, hk, hmem⟩ := (staleAt_iff actions M msgs i).mp hstale
        by_cases hkK : k = K
        · subst hkK
          exact ⟨i, hmem, by simp⟩
        · rw [staleIndices_of_le actions M msgs k
            (othersWithinLimit_spec actions M msgs K h_unique i k hk hkK)] at hmem
          cases hmem
      · obtain ⟨k, hk, hmem⟩ := (staleAt_iff actions M msgs (i - 1)).mp hstale
        by_cases hkK : k = K
        · subst hkK
          exact ⟨i - 1, hmem, by simp; omega⟩
        · rw [staleIndices_of_le actions M msgs k
            (othersWithinLimit_spec actions M msgs K h_unique (i - 1) k hk hkK)] at hmem
          cases hmem
    · rintro ⟨j, hj, hji⟩
      have hjocc : j ∈ keyIndices actions msgs K := by
        rw [staleIndices_of_lt actions M msgs K h_count] at hj
        exact List.take_subset _ _ hj
      have hjlt := (mem_keyIndices actions K msgs j).mp hjocc
      simp only [List.mem_cons, List.mem_singleton, List.not_mem_nil, or_false] at hji
      rcases hji with rfl | rfl
      · left
        refine ⟨hjlt.1, (staleAt_iff actions M msgs i).mpr ⟨K, hjlt.2, hj⟩⟩
      · right
        obtain ⟨hlt2, hrole⟩ := h_pairs j hjocc
        refine ⟨by omega, hlt2, hrole, ?_⟩
        refine (staleAt_iff actions M msgs (j + 1 - 1)).mpr ⟨K, ?_, ?_⟩
        · simpa using hjlt.2
        · simpa using hj
  cases hr : removedIndex actions M msgs i with
  | true => exact (hiff.mp hr).symm
  | false =>
    cases hc : ((staleIndices actions M msgs K).flatMap (fun j => [j, j + 1])).contains i with
    | true => exact absurd (hiff.mpr hc) (by simp [hr])
    | false => rfl

/-- When the summarization stage is disabled or stays below its
triggers, `optimize` returns exactly the collapsed list. -/
theorem cmOptimize_messages_quiet (st : CMState) (msgs : List ConversationMessage)
    (h_en : st.enabled = true) (h_len : 2 < msgs.length)
    (h_quiet : st.summaryEnabled = false ∨
      summaryTriggered st (dedupMessages st.optimizedActions st.maxInstances msgs)
        (shouldForceSummaryByTokens st (dedupMessages st.optimizedActions st.maxInstances msgs))
        = false) :
    (cmOptimize st msgs).1.messages = dedupMessages st.optimizedActions st.maxInstances msgs := by
  obtain ⟨L, H, hh⟩ := hydrate_only_summary st msgs
  unfold cmOptimize
  rw [hh]
  dsimp only
  rw [if_neg (by simp only [h_en, Bool.not_true, Bool.false_or, decide_eq_true_eq]; omega)]
  rcases h_quiet with hs | ht
  · simp only [hs, Bool.false_eq_true, if_false]
  · by_cases hs : st.summaryEnabled = true
    · simp only [hs, eq_self_iff_true, if_true]
      unfold applySummaries
      rw [if_pos (by
        have ht' : summaryTriggered
            ({ st with summaryEnabled := true, summaryLines := L, summaryHashes := H } : CMState)
            (dedupMessages st.optimizedActions st.maxInstances msgs)
            (shouldForceSummaryByTokens
              ({ st with summaryEnabled := true, summaryLines := L, summaryHashes := H } : CMState)
              (dedupMessages st.optimizedActions st.maxInstances msgs)) = false := ht
        rw [ht']
        rfl)]
    · rw [if_neg hs]

/-- C2: given more than `maxInstances` assistant turns sharing one
dedup key `K` (identical content matching the regular expression with
an optimizable capture), each immediately followed by a tool-result
turn, among turns whose other keys stay within the limit, `optimize`
(with the summarization stage disabled or below its triggers, isolating
the collapsing mechanism) removes exactly the earliest
`N - maxInstances` occurrences together with their tool-result turns —
so the surviving pairs are the most recent ones — and exactly
`maxInstances` turns carrying key `K` remain. -/
theorem c2_dedup_correctness (st : CMState) (msgs : List ConversationMessage) (K : String)
    (h_en : st.enabled = true) (h_len : 2 < msgs.length)
    (h_quiet : st.summaryEnabled = false ∨
      summaryTriggered st (dedupMessages st.optimizedActions st.maxInstances msgs)
        (shouldForceSummaryByTokens st (dedupMessages st.optimizedActions st.maxInstances msgs))
        = false)
    (h_count : st.maxInstances < (keyIndices st.optimizedActions msgs K).length)
    (h_pairs : ∀ i ∈ keyIndices st.optimizedActions msgs K,
        i + 1 < msgs.length ∧ (msgs.getD (i + 1) dummyMessage).role = Role.tool)
    (h_unique : othersWithinLimit st.optimizedActions st.maxInstances msgs K = true) :
    (cmOptimize st msgs).1.messages
      = filterIdx (fun i =>
          !((staleIndices st.optimizedActions st.maxInstances msgs K).flatMap
            (fun j => [j, j + 1])).contains i) msgs 0 ∧
    (keyIndices st.optimizedActions (cmOptimize st msgs).1.messages K).length
      = st.maxInstances := by
  have hmsg := cmOptimize_messages_quiet st msgs h_en h_len h_quiet
  have hpt : ∀ i, (!removedIndex st.optimizedActions st.maxInstances msgs i)
      = (!((staleIndices st.optimizedActions st.maxInstances msgs K).flatMap
          (fun j => [j, j + 1])).contains i) := by
    intro i
    rw [removedIndex_eq_pairs st.optimizedActions st.maxInstances msgs K
      h_count h_pairs h_unique i]
  have hdedup : dedupMessages st.optimizedActions st.maxInstances msgs
      = filterIdx (fun i =>
          !((staleIndices st.optimizedActions st.maxInstances msgs K).flatMap
            (fun j => [j, j + 1])).contains i) msgs 0 := by
    unfold dedupMessages
    exact filterIdx_congr _ _ hpt msgs 0
  refine ⟨by rw [hmsg, hdedup], ?_⟩
  rw [hmsg, hdedup]
  have hocc_nodup := keyIndicesAux_nodup st.optimizedActions K msgs 0
  have hsplit := (List.take_append_drop
    ((keyIndices st.optimizedActions msgs K).length - st.maxInstances)
    (keyIndices st.optimizedActions msgs K)).symm
  have hdisj : List.Disjoint
      ((keyIndices st.optimizedActions msgs K).take
        ((keyIndices st.optimizedActions msgs K).length - st.maxInstances))
      ((keyIndices st.optimizedActions msgs K).drop
        ((keyIndices st.optimizedActions msgs K).length - st.maxInstances)) := by
    have : ((keyIndices st.optimizedActions msgs K).take
        ((keyIndices st.optimizedActions msgs K).length - st.maxInstances) ++
      (keyIndices st.optimizedActions msgs K).drop
        ((keyIndices st.optimizedActions msgs K).length - st.maxInstances)).Nodup := by
      rw [List.take_append_drop]
      exact hocc_nodup
    exact (List.nodup_append.mp this).2.2
  unfold keyIndices
  rw [keyIndicesAux_length, countP_key_filterIdx]
  have hq : ∀ i ∈ (keyIndices st.optimizedActions msgs K).drop
      ((keyIndices st.optimizedActions msgs K).length - st.maxInstances),
      (!((staleIndices st.optimizedActions st.maxInstances msgs K).flatMap
        (fun j => [j, j + 1])).contains i) = true := by
    intro i hi
    rw [Bool.not_eq_true']
    rw [← Bool.not_eq_true]
    intro hc
    rw [List.elem_iff, List.mem_flatMap] at hc
    obtain ⟨j, hjstale, hji⟩ := hc
    rw [staleIndices_of_lt st.optimizedActions st.maxInstances msgs K h_count] at hjstale
    simp only [List.mem_cons, List.mem_singleton, List.not_mem_nil, or_false] at hji
    rcases hji with rfl | rfl
    · exact hdisj hjstale hi
    · have hjocc : j ∈ keyIndices st.optimizedActions msgs K :=
        List.take_subset _ _ hjstale
      have hiocc : j + 1 ∈ keyIndices st.optimizedActions msgs K :=
        List.drop_subset _ _ hi
      have hrole := (h_pairs j hjocc).2
      have hkey := ((mem_keyIndices st.optimizedActions K msgs (j + 1)).mp hiocc).2
      have := messageKey_some_role st.optimizedActions _ K hkey
      rw [hrole] at this
      cases this
  have hstalefalse : ∀ i ∈ (keyIndices st.optimizedActions msgs K).take
      ((keyIndices st.optimizedActions msgs K).length - st.maxInstances),
      ¬((!((staleIndices st.optimizedActions st.maxInstances msgs K).flatMap
        (fun j => [j, j + 1])).contains i) = true) := by
    intro i hi
    rw [Bool.not_eq_true', ← Bool.not_eq_true]
    intro hcon
    apply hcon
    rw [List.elem_iff, List.mem_flatMap]
    refine ⟨i, ?_, by simp⟩
    rw [staleIndices_of_lt st.optimizedActions st.maxInstances msgs K h_count]
    exact hi
  calc (((keyIndicesAux st.optimizedActions K msgs 0).filter (fun i =>
          !((staleIndices st.optimizedActions st.maxInstances msgs K).flatMap
            (fun j => [j, j + 1])).contains i)).length)
      = ((((keyIndices st.optimizedActions msgs K).take
            ((keyIndices st.optimizedActions msgs K).length - st.maxInstances) ++
          (keyIndices st.optimizedActions msgs K).drop
            ((keyIndices st.optimizedActions msgs K).length - st.maxInstances)).filter (fun i =>
          !((staleIndices st.optimizedActions st.maxInstances msgs K).flatMap
            (fun j => [j, j + 1])).contains i)).length) := by
        rw [← hsplit]
        rfl
    _ = st.maxInstances := by
        rw [List.filter_append]
        rw [List.filter_eq_nil_iff.mpr hstalefalse, List.filter_eq_self.mpr hq]
        simp only [List.nil_append, List.length_drop]
        omega

set_option maxRecDepth 400000 in
/-- C2 witness: on `msgsC2` (two identical `read_file` pairs at (1,2)
and (3,4) under default options: `maxInstances = 1`) the collapsed
transcript drops exactly the earlier pair and keeps the later one. -/
theorem c2_dedup_correctness_witness :
    (stC2.enabled = true ∧ 2 < msgsC2.length ∧
      (stC2.summaryEnabled = false ∨
        summaryTriggered stC2 (dedupMessages stC2.optimizedActions stC2.maxInstances msgsC2)
          (shouldForceSummaryByTokens stC2
            (dedupMessages stC2.optimizedActions stC2.maxInstances msgsC2)) = false) ∧
      stC2.maxInstances < (keyIndices stC2.optimizedActions msgsC2 keyC2).length ∧
      othersWithinLimit stC2.optimizedActions stC2.maxInstances msgsC2 keyC2 = true) ∧
    ((cmOptimize stC2 msgsC2).1.messages
      = filterIdx (fun i =>
          !((staleIndices stC2.optimizedActions stC2.maxInstances msgsC2 keyC2).flatMap
            (fun j => [j, j + 1])).contains i) msgsC2 0 ∧
    (keyIndices stC2.optimizedActions (cmOptimize stC2 msgsC2).1.messages keyC2).length
      = stC2.maxInstances) :=
  ⟨⟨rfl, by decide, Or.inr (by decide), by decide, by decide⟩,
    c2_dedup_correctness stC2 msgsC2 keyC2 rfl (by decide) (Or.inr (by decide)) (by decide)
      (by decide) (by decide)⟩
